import Mathlib

/-!
# Verification of the Glint AI orchestration core

Shallow embedding of the AI provider registry, fan-out dispatch, result
merging, and context management implemented in
`src/vs/workbench/services/aiCore/common/aiCoreService.ts` (the repository
snapshot contains two revisions of this file: the original service class and a
refactored one split into `AiProviderManager` / `AiResultMerger` helper
classes) and `src/vs/workbench/services/aiAssistant/common/aiAssistantService.ts`
(likewise two revisions, whose context-management code is identical).

Modelling conventions:
* Promises are modelled by `Except String α`: a provider call is represented by
  its outcome, `Promise.all` by left-to-right sequencing that fails on the
  first rejection.
* JavaScript object identity (`===`, used by `Array.prototype.indexOf`) is
  modelled by a numeric `ref` field on providers; two distinct objects carry
  distinct `ref`s.
* `Record<string, any>` metadata objects are modelled as insertion-ordered
  association lists with unique keys; `Object.assign` updates a present key in
  place and appends absent keys, exactly as JS objects behave.
* Scores (`number`) are modelled by `ℚ`; the comparator `b.score - a.score` is
  sign-equivalent to comparison of rationals for all non-NaN inputs.
* `Array.prototype.sort` is stable (ES2019); a stable comparator sort is
  extensionally unique, so it is modelled by Mathlib's stable
  `List.insertionSort` with the order induced by the comparator.
-/

-- =========================================================================
-- Data model (aiCoreService.ts interface section, both revisions identical)
-- =========================================================================

/-- `AiCapability` enum from aiCoreService.ts. -/
inductive AiCapability where
  | codeCompletion | chat | codeEdit | explanation | refactoring | bugFix
  | testGeneration | documentation | codeReview | performanceOptimization
  | securityAnalysis
deriving DecidableEq

/-- `AiCompletionKind` enum from aiCoreService.ts. -/
inductive AiCompletionKind where
  | function | variable | class_ | interface | import_ | method | property
  | parameter | type | keyword | snippet
deriving DecidableEq

/-- `AiEditKind` enum from aiCoreService.ts. -/
inductive AiEditKind where
  | insert | replace | delete | refactor
deriving DecidableEq

/-- `IRange` (editor core): 1-based line/column positions, modelled as `Nat`. -/
structure IRange where
  startLineNumber : Nat
  startColumn : Nat
  endLineNumber : Nat
  endColumn : Nat
deriving DecidableEq

/-- Metadata payload values (`any` in `Record<string, any>`) are opaque to the
merge logic, so every result type is parametrised by their type `V`. A record
is an insertion-ordered association list. -/
abbrev JsRecord (V : Type) := List (String × V)

/-- `AiCompletion` from aiCoreService.ts. -/
structure AiCompletion (V : Type) where
  text : String
  range : IRange
  kind : AiCompletionKind
  score : ℚ
  metadata : Option (JsRecord V) := none
deriving DecidableEq

/-- `AiCompletionResult` from aiCoreService.ts. -/
structure AiCompletionResult (V : Type) where
  completions : List (AiCompletion V)
  metadata : Option (JsRecord V) := none
deriving DecidableEq

/-- `AiCodeBlock` from aiCoreService.ts. -/
structure AiCodeBlock where
  code : String
  language : String
  range : Option IRange := none
  explanation : Option String := none
deriving DecidableEq

/-- `AiChatResponse` from aiCoreService.ts. -/
structure AiChatResponse (V : Type) where
  message : String
  codeBlocks : List AiCodeBlock
  suggestions : List String
  metadata : Option (JsRecord V) := none
deriving DecidableEq

/-- `AiCodeEdit` from aiCoreService.ts. -/
structure AiCodeEdit where
  range : IRange
  text : String
  kind : AiEditKind
deriving DecidableEq

/-- `AiCodeEditResult` from aiCoreService.ts. -/
structure AiCodeEditResult (V : Type) where
  edits : List AiCodeEdit
  explanation : Option String := none
  metadata : Option (JsRecord V) := none
deriving DecidableEq

/-- `IAiProvider` descriptor. `ref` models JavaScript object identity (the
`===` comparison used by `Array.prototype.indexOf`); `id`, `name` and
`capabilities` are the declared interface fields. The `initialize`/`dispose`
lifecycle methods are modelled by the registry's dispose log. -/
structure AiProvider where
  ref : Nat
  id : String
  name : String
  capabilities : List AiCapability := []
deriving DecidableEq

-- =========================================================================
-- JavaScript object semantics (Object.assign / Map)
-- =========================================================================

/-- `target[k] = v` on a JS object: an existing key keeps its position and gets
the new value, an absent key is appended. -/
def objSet {V : Type} : JsRecord V → String → V → JsRecord V
  | [], k, v => [(k, v)]
  | (k0, v0) :: rest, k, v =>
    if k0 == k then (k, v) :: rest else (k0, v0) :: objSet rest k v

/-- `Object.assign(target, source)`: every own key of `source` is written into
`target` in `source`'s insertion order. -/
def objAssign {V : Type} (target source : JsRecord V) : JsRecord V :=
  source.foldl (fun acc kv => objSet acc kv.1 kv.2) target

/-- The metadata-collection loop shared by all three merge functions:
`if (result.metadata) { Object.assign(metadata, result.metadata); }` folded
over the per-provider results in registration order, starting from `{}`. -/
def collectMetadata {V : Type} (ms : List (Option (JsRecord V))) : JsRecord V :=
  ms.foldl (fun acc m => match m with | some o => objAssign acc o | none => acc) []

-- =========================================================================
-- AiProviderManager (part_003 lines 1285-1388; the original AiCoreService
-- lines 469-546 inlines the same registration logic and lists)
-- =========================================================================

/-- Registry state: the general provider `Map` keyed by `provider.id`, the
three kind-specific insertion-ordered arrays, and a log of the provider `ref`s
whose `dispose()` was invoked, in call order. -/
structure ProviderManagerState where
  providers : List (String × AiProvider) := []
  completionProviders : List AiProvider := []
  chatProviders : List AiProvider := []
  codeEditProviders : List AiProvider := []
  disposeLog : List Nat := []
deriving DecidableEq

namespace AiProviderManager

/-- The state of a freshly constructed manager. -/
def initialState : ProviderManagerState := {}

/-- `registerAiProvider`: `this.providers.set(provider.id, provider)`. -/
def registerAiProvider (p : AiProvider) (st : ProviderManagerState) : ProviderManagerState :=
  { st with providers := objSet st.providers p.id p }

/-- The disposable returned by `registerAiProvider`:
`this.providers.delete(provider.id); provider.dispose();`. -/
def unregisterAiProvider (p : AiProvider) (st : ProviderManagerState) : ProviderManagerState :=
  { st with
    providers := st.providers.eraseP (fun kv => kv.1 == p.id)
    disposeLog := st.disposeLog ++ [p.ref] }

/-- `registerCodeCompletionProvider`: `this.completionProviders.push(provider)`. -/
def registerCodeCompletionProvider (p : AiProvider) (st : ProviderManagerState) : ProviderManagerState :=
  { st with completionProviders := st.completionProviders ++ [p] }

/-- `indexOf` + `splice(index, 1)`: remove the first occurrence (by object
identity) if present, otherwise do nothing. -/
def spliceOut (l : List AiProvider) (r : Nat) : List AiProvider :=
  l.eraseP (fun q => q.ref == r)

/-- The disposable returned by `registerCodeCompletionProvider`. It does not
call `provider.dispose()`. -/
def unregisterCodeCompletionProvider (p : AiProvider) (st : ProviderManagerState) : ProviderManagerState :=
  { st with completionProviders := spliceOut st.completionProviders p.ref }

/-- `registerChatProvider`: `this.chatProviders.push(provider)`. -/
def registerChatProvider (p : AiProvider) (st : ProviderManagerState) : ProviderManagerState :=
  { st with chatProviders := st.chatProviders ++ [p] }

/-- The disposable returned by `registerChatProvider`. It does not call
`provider.dispose()`. -/
def unregisterChatProvider (p : AiProvider) (st : ProviderManagerState) : ProviderManagerState :=
  { st with chatProviders := spliceOut st.chatProviders p.ref }

/-- `registerCodeEditProvider`: `this.codeEditProviders.push(provider)`. -/
def registerCodeEditProvider (p : AiProvider) (st : ProviderManagerState) : ProviderManagerState :=
  { st with codeEditProviders := st.codeEditProviders ++ [p] }

/-- The disposable returned by `registerCodeEditProvider`. It does not call
`provider.dispose()`. -/
def unregisterCodeEditProvider (p : AiProvider) (st : ProviderManagerState) : ProviderManagerState :=
  { st with codeEditProviders := spliceOut st.codeEditProviders p.ref }

/-- `isEnabled(): boolean { return this.providers.size > 0; }` — both the
original `AiCoreService.isEnabled` (part_003 line 490) and
`AiProviderManager.isEnabled` (line 1364) consult only the general `Map`. -/
def isEnabled (st : ProviderManagerState) : Bool :=
  !st.providers.isEmpty

end AiProviderManager

-- =========================================================================
-- AiResultMerger (part_003 lines 1393-1476; the original AiCoreService's
-- private mergeCompletionResults / mergeChatResults / mergeCodeEditResults /
-- deduplicateCompletions, lines 712-782, are textually identical)
-- =========================================================================

namespace AiResultMerger

/-- The dedup key built by `deduplicateCompletions`:
`` `${completion.text}-${completion.range.startLineNumber}-${completion.range.startColumn}` ``. -/
def completionKey {V : Type} (c : AiCompletion V) : String :=
  c.text ++ "-" ++ Nat.repr c.range.startLineNumber ++ "-" ++ Nat.repr c.range.startColumn

/-- The `completions.filter(...)` pass with its closed-over mutable `seen` set:
keep a completion iff its key has not been seen, adding kept keys to `seen`. -/
def dedupGo {V : Type} (seen : List String) : List (AiCompletion V) → List (AiCompletion V)
  | [] => []
  | c :: cs =>
    if completionKey c ∈ seen then dedupGo seen cs
    else c :: dedupGo (completionKey c :: seen) cs

/-- `deduplicateCompletions`: first-seen-wins filtering on `completionKey`. -/
def deduplicateCompletions {V : Type} (l : List (AiCompletion V)) : List (AiCompletion V) :=
  dedupGo [] l

/-- The order induced by the sort comparator `(a, b) => b.score - a.score`:
`a` may precede `b` exactly when the comparator is ≤ 0, i.e. `b.score ≤ a.score`. -/
def scoreOrder {V : Type} (a b : AiCompletion V) : Prop :=
  b.score ≤ a.score

instance {V : Type} : DecidableRel (@scoreOrder V) :=
  fun a b => inferInstanceAs (Decidable (b.score ≤ a.score))

instance {V : Type} : IsTotal (AiCompletion V) scoreOrder :=
  ⟨fun a b => (le_total b.score a.score).imp id id⟩

instance {V : Type} : IsTrans (AiCompletion V) scoreOrder :=
  ⟨fun _ _ _ h1 h2 => le_trans h2 h1⟩

/-- The `for (const result of results) { allCompletions.push(...result.completions); }`
accumulation loop. -/
def allCompletions {V : Type} (results : List (AiCompletionResult V)) : List (AiCompletion V) :=
  results.foldl (fun acc r => acc ++ r.completions) []

/-- `mergeCompletionResults`: concatenate, collect metadata, deduplicate, then
`uniqueCompletions.sort((a, b) => b.score - a.score)` (a stable sort). -/
def mergeCompletionResults {V : Type} (results : List (AiCompletionResult V)) : AiCompletionResult V :=
  let metadata := collectMetadata (results.map (·.metadata))
  let uniqueCompletions := deduplicateCompletions (allCompletions results)
  { completions := uniqueCompletions.insertionSort scoreOrder
    metadata := some metadata }

/-- JavaScript `x || ''` applied to an optional string (`results[0]?.message`):
`undefined` and the empty string are falsy. -/
def jsOrEmpty (s : Option String) : String :=
  match s with
  | none => ""
  | some v => if v == "" then "" else v

/-- `[...new Set(allSuggestions)]` with the Set's closed-over insertion
semantics: keep a string iff it is not already in `seen`. -/
def jsSetDedupGo (seen : List String) : List String → List String
  | [] => []
  | s :: ss =>
    if s ∈ seen then jsSetDedupGo seen ss
    else s :: jsSetDedupGo (s :: seen) ss

/-- `mergeChatResults`: message from `results[0]?.message || ''`, code blocks
concatenated in order, suggestions deduplicated via `new Set`, metadata
collected via `Object.assign`. -/
def mergeChatResults {V : Type} (results : List (AiChatResponse V)) : AiChatResponse V :=
  let allCodeBlocks := results.foldl (fun acc r => acc ++ r.codeBlocks) []
  let allSuggestions := results.foldl (fun acc r => acc ++ r.suggestions) []
  let metadata := collectMetadata (results.map (·.metadata))
  { message := jsOrEmpty (results.head?.map (·.message))
    codeBlocks := allCodeBlocks
    suggestions := jsSetDedupGo [] allSuggestions
    metadata := some metadata }

/-- `mergeCodeEditResults`: edits concatenated in order, explanation from
`results[0]?.explanation || ''`, metadata collected via `Object.assign`. -/
def mergeCodeEditResults {V : Type} (results : List (AiCodeEditResult V)) : AiCodeEditResult V :=
  let allEdits := results.foldl (fun acc r => acc ++ r.edits) []
  let metadata := collectMetadata (results.map (·.metadata))
  { edits := allEdits
    explanation := some (jsOrEmpty (results.head?.bind (·.explanation)))
    metadata := some metadata }

end AiResultMerger

-- =========================================================================
-- Fan-out dispatch
-- =========================================================================

/-- `Promise.all` over already-started provider calls, each modelled by its
outcome: succeeds with the list of values iff every call succeeds, otherwise
rejects with a rejection of one of the calls. -/
def promiseAll {E A : Type} : List (Except E A) → Except E (List A)
  | [] => .ok []
  | x :: xs =>
    match x with
    | .error e => .error e
    | .ok a => (promiseAll xs).map (fun as => a :: as)

/-- `AiCoreService.executeWithProviders` (refactored revision, part_003 lines
1695-1709): maps each provider to its call outcome; the inner `try`/`catch`
only logs and rethrows the same error, so it does not change the outcome. -/
def executeWithProviders {A : Type} (providers : List AiProvider)
    (operation : AiProvider → Except String A) : Except String (List A) :=
  promiseAll (providers.map operation)

/- Original `AiCoreService` (first revision in part_003, class at line 469).
A dispatch is modelled as a function of the registry state and of the
per-provider call outcome (`provider.provideCompletion(query, context, token)`
abstracted over the fixed query/context/token of the dispatch). -/
namespace AiCoreV1

/-- `getCompletion` (part_003 lines 548-581): reject immediately when no
completion provider is registered, otherwise `Promise.all` then merge. -/
def getCompletion {V : Type} (st : ProviderManagerState)
    (provide : AiProvider → Except String (AiCompletionResult V)) :
    Except String (AiCompletionResult V) :=
  if st.completionProviders.length = 0 then
    .error "No code completion providers registered"
  else
    (promiseAll (st.completionProviders.map provide)).map AiResultMerger.mergeCompletionResults

/-- `getChatResponse` (part_003 lines 583-616). -/
def getChatResponse {V : Type} (st : ProviderManagerState)
    (provide : AiProvider → Except String (AiChatResponse V)) :
    Except String (AiChatResponse V) :=
  if st.chatProviders.length = 0 then
    .error "No chat providers registered"
  else
    (promiseAll (st.chatProviders.map provide)).map AiResultMerger.mergeChatResults

/-- `getCodeEdit` (part_003 lines 618-651). -/
def getCodeEdit {V : Type} (st : ProviderManagerState)
    (provide : AiProvider → Except String (AiCodeEditResult V)) :
    Except String (AiCodeEditResult V) :=
  if st.codeEditProviders.length = 0 then
    .error "No code edit providers registered"
  else
    (promiseAll (st.codeEditProviders.map provide)).map AiResultMerger.mergeCodeEditResults

end AiCoreV1

/- Refactored `AiCoreService` (second revision in part_003, class at line
1497), which routes every dispatch through `validateProvidersExist`. -/
namespace AiCoreV2

/-- `validateProvidersExist` (part_003 lines 1685-1690): despite its name and
error message, it checks `providerManager.isEnabled()`, i.e. only the general
provider `Map`, never the kind-specific list. -/
def validateProvidersExist (st : ProviderManagerState) (operationType : String) :
    Except String Unit :=
  if AiProviderManager.isEnabled st then .ok ()
  else .error ("No AI providers registered for " ++ operationType)

/-- `getCompletion` (part_003 lines 1564-1582). -/
def getCompletion {V : Type} (st : ProviderManagerState)
    (provide : AiProvider → Except String (AiCompletionResult V)) :
    Except String (AiCompletionResult V) :=
  match validateProvidersExist st "completion" with
  | .error e => .error e
  | .ok _ =>
    (executeWithProviders st.completionProviders provide).map
      AiResultMerger.mergeCompletionResults

/-- `getChatResponse` (part_003 lines 1587-1605). -/
def getChatResponse {V : Type} (st : ProviderManagerState)
    (provide : AiProvider → Except String (AiChatResponse V)) :
    Except String (AiChatResponse V) :=
  match validateProvidersExist st "chat" with
  | .error e => .error e
  | .ok _ =>
    (executeWithProviders st.chatProviders provide).map AiResultMerger.mergeChatResults

/-- `getCodeEdit` (part_003 lines 1610-1628). -/
def getCodeEdit {V : Type} (st : ProviderManagerState)
    (provide : AiProvider → Except String (AiCodeEditResult V)) :
    Except String (AiCodeEditResult V) :=
  match validateProvidersExist st "code edit" with
  | .error e => .error e
  | .ok _ =>
    (executeWithProviders st.codeEditProviders provide).map AiResultMerger.mergeCodeEditResults

end AiCoreV2

-- =========================================================================
-- AiContextManager (aiAssistantService.ts lines 170-215; the second revision's
-- AiAssistantService.setContext / clearContext, lines 1422-1440, inline the
-- identical logic with the history bound 10 written inline)
-- =========================================================================

/-- `AiContext`: an aggregate of optional facets. The workspace, file,
selection and user-preference payloads are opaque to the context manager, so
they are type parameters; a `none` field models an absent key. -/
structure AiContext (W F S P : Type) where
  workspace : Option W := none
  file : Option F := none
  selection : Option S := none
  language : Option String := none
  framework : Option String := none
  projectType : Option String := none
  userPreferences : Option P := none
deriving DecidableEq

namespace AiContextManager

/-- The JS spread overlay `{ ...this.currentContext, ...context }`: each
top-level key present in the update wins, each absent key keeps the current
value. -/
def overlayContext {W F S P : Type} (cur upd : AiContext W F S P) : AiContext W F S P :=
  { workspace := match upd.workspace with | some v => some v | none => cur.workspace
    file := match upd.file with | some v => some v | none => cur.file
    selection := match upd.selection with | some v => some v | none => cur.selection
    language := match upd.language with | some v => some v | none => cur.language
    framework := match upd.framework with | some v => some v | none => cur.framework
    projectType := match upd.projectType with | some v => some v | none => cur.projectType
    userPreferences := match upd.userPreferences with | some v => some v | none => cur.userPreferences }

/-- The manager's mutable state: `currentContext` and `contextHistory`. -/
structure ManagerState (W F S P : Type) where
  currentContext : AiContext W F S P := {}
  contextHistory : List (AiContext W F S P) := []
deriving DecidableEq

/-- A freshly constructed manager: empty context, empty history. -/
def initialState {W F S P : Type} : ManagerState W F S P := {}

/-- `maxHistorySize` from aiAssistantService.ts line 173. -/
def maxHistorySize : Nat := 10

/-- `setContext`: snapshot the old context, overlay the update, push the
snapshot (`addToHistory`), and `shift()` the oldest entry when the history
exceeds `maxHistorySize`. -/
def setContext {W F S P : Type} (st : ManagerState W F S P) (context : AiContext W F S P) :
    ManagerState W F S P :=
  let oldContext := st.currentContext
  let newContext := overlayContext st.currentContext context
  let pushed := st.contextHistory ++ [oldContext]
  { currentContext := newContext
    contextHistory := if pushed.length > maxHistorySize then pushed.tail else pushed }

/-- `getCurrentContext`: a shallow copy of the current context (the copy is
identity on our immutable values). -/
def getCurrentContext {W F S P : Type} (st : ManagerState W F S P) : AiContext W F S P :=
  st.currentContext

/-- `clearContext`: reset context to `{}` and truncate the history. -/
def clearContext {W F S P : Type} (_st : ManagerState W F S P) : ManagerState W F S P :=
  { currentContext := {}, contextHistory := [] }

end AiContextManager

-- =========================================================================
-- Spec-side definitions (formalising the specification's wording, to be
-- compared against the code-derived definitions above)
-- =========================================================================

/-- Spec wording for the chat-merge message rule: "message = first non-empty
provider's message" (empty when no provider has a non-empty message). -/
def specFirstNonEmptyMessage {V : Type} (results : List (AiChatResponse V)) : String :=
  match results.find? (fun r => !(r.message == "")) with
  | some r => r.message
  | none => ""

/-- Spec wording for suggestion merging: "union with duplicates removed,
order-preserving on first occurrence". -/
def specDedupFirst : List String → List String
  | [] => []
  | x :: xs => x :: specDedupFirst (xs.filter (fun y => !(y == x)))
termination_by l => l.length
decreasing_by
  simp only [List.length_cons]
  exact Nat.lt_succ_of_le (List.length_filter_le _ _)

/-- Spec wording for metadata merging: the value for key `k` comes from the
last provider (in registration order) whose metadata object carries `k`;
within one object the last write for `k` wins; providers with absent metadata
contribute nothing. -/
def specLastWriterWins {V : Type} (ms : List (Option (JsRecord V))) (k : String) : Option V :=
  (ms.filterMap id).reverse.findSome? (fun m => m.reverse.lookup k)

/-- The pre-update snapshots produced by a sequence of `setContext` calls
starting from context `c`: the i-th entry is the context immediately before
the i-th update. -/
def preSnapshots {W F S P : Type} (c : AiContext W F S P) :
    List (AiContext W F S P) → List (AiContext W F S P)
  | [] => []
  | u :: us => c :: preSnapshots (AiContextManager.overlayContext c u) us

-- =========================================================================
-- Sample data for witnesses and counterexamples
-- =========================================================================

/-- A sample provider object. -/
def sampleProvider : AiProvider := ⟨0, "p1", "Provider One", []⟩

/-- A second, distinct sample provider object. -/
def sampleProvider2 : AiProvider := ⟨1, "p2", "Provider Two", []⟩

/-- A registry state with one provider in each kind-specific list (and none in
the general map). -/
def sampleKindState : ProviderManagerState :=
  { completionProviders := [sampleProvider]
    chatProviders := [sampleProvider]
    codeEditProviders := [sampleProvider] }

/-- Completion "X", score 0.9 (spec example for sort stability). -/
def completionX : AiCompletion Unit :=
  { text := "X", range := ⟨1, 1, 1, 1⟩, kind := .snippet, score := 9/10 }

/-- Completion "Y", score 0.9, at a different range (spec example). -/
def completionY : AiCompletion Unit :=
  { text := "Y", range := ⟨2, 1, 2, 1⟩, kind := .snippet, score := 9/10 }

-- =========================================================================
-- General helper lemmas
-- =========================================================================

lemma foldl_append_eq_join {α β : Type} (g : β → List α) :
    ∀ (rs : List β) (acc : List α),
      rs.foldl (fun a r => a ++ g r) acc = acc ++ (rs.map g).flatten := by
  intro rs
  induction rs with
  | nil => intro acc; simp
  | cons r rs ih => intro acc; simp [ih]

lemma exceptMap_isOk {E A B : Type} (f : A → B) (x : Except E A) :
    (x.map f).isOk = x.isOk := by
  cases x <;> rfl

lemma exceptMap_error {E A B : Type} (f : A → B) (x : Except E A) (e : E) :
    x.map f = .error e ↔ x = .error e := by
  cases x <;> simp [Except.map]

-- =========================================================================
-- Context manager lemmas (claims C7, C8)
-- =========================================================================

lemma length_preSnapshots {W F S P : Type} :
    ∀ (us : List (AiContext W F S P)) (c : AiContext W F S P),
      (preSnapshots c us).length = us.length := by
  intro us
  induction us with
  | nil => intro c; rfl
  | cons u us ih => intro c; simp [preSnapshots, ih]

lemma foldl_setContext_history {W F S P : Type} :
    ∀ (us : List (AiContext W F S P)) (st : AiContextManager.ManagerState W F S P),
      st.contextHistory.length ≤ 10 →
      (us.foldl AiContextManager.setContext st).contextHistory
        = (st.contextHistory ++ preSnapshots st.currentContext us).drop
            ((st.contextHistory.length + us.length) - 10) := by
  intro us
  induction us with
  | nil =>
    intro st h
    simp [preSnapshots, Nat.sub_eq_zero_of_le h]
  | cons u us ih =>
    intro st h
    have hcur : (AiContextManager.setContext st u).currentContext
        = AiContextManager.overlayContext st.currentContext u := rfl
    rw [List.foldl_cons]
    by_cases hlen : st.contextHistory.length ≤ 9
    · have hst : (AiContextManager.setContext st u).contextHistory
          = st.contextHistory ++ [st.currentContext] := by
        simp only [AiContextManager.setContext, AiContextManager.maxHistorySize]
        rw [if_neg]
        simp only [List.length_append, List.length_singleton]
        omega
      rw [ih _ (by rw [hst]; simp only [List.length_append, List.length_singleton]; omega),
        hst, hcur]
      simp only [List.length_append, List.length_singleton, preSnapshots,
        List.append_assoc, List.singleton_append, List.length_cons, List.length_nil,
        List.nil_append, Nat.zero_add]
      congr 1
      omega
    · have hlen10 : st.contextHistory.length = 10 := by omega
      obtain ⟨a, h0, hcons⟩ : ∃ a h0, st.contextHistory = a :: h0 := by
        cases hh : st.contextHistory with
        | nil => rw [hh] at hlen10; simp at hlen10
        | cons a h0 => exact ⟨a, h0, rfl⟩
      have h0len : h0.length = 9 := by rw [hcons] at hlen10; simpa using hlen10
      have hst : (AiContextManager.setContext st u).contextHistory
          = h0 ++ [st.currentContext] := by
        simp only [AiContextManager.setContext, AiContextManager.maxHistorySize]
        rw [if_pos]
        · rw [hcons, List.cons_append, List.tail_cons]
        · simp only [List.length_append, List.length_singleton]
          omega
      rw [ih _ (by rw [hst]; simp only [List.length_append, List.length_singleton]; omega),
        hst, hcur, hcons]
      simp only [List.length_append, List.length_singleton, h0len, preSnapshots,
        List.append_assoc, List.singleton_append, List.length_cons, List.cons_append,
        List.length_nil, List.nil_append, Nat.zero_add]
      have e1 : 9 + 1 + us.length - 10 = us.length := by omega
      have e2 : 9 + 1 + (us.length + 1) - 10 = us.length + 1 := by omega
      rw [e1, e2, List.drop_succ_cons]

/-- **C7** — `setContext` performs a shallow field-wise overlay: every
top-level field present in the update takes the update's value and every field
absent from the update keeps its prior value; consequently
`setContext({language})` followed by `setContext({framework})` yields a
context containing both fields, with all other fields unchanged. -/
theorem setContext_shallow_overlay {W F S P : Type}
    (st : AiContextManager.ManagerState W F S P) (upd : AiContext W F S P)
    (l fw : String) :
    ((AiContextManager.setContext st upd).currentContext.workspace
        = (match upd.workspace with | some v => some v | none => st.currentContext.workspace)
      ∧ (AiContextManager.setContext st upd).currentContext.file
        = (match upd.file with | some v => some v | none => st.currentContext.file)
      ∧ (AiContextManager.setContext st upd).currentContext.selection
        = (match upd.selection with | some v => some v | none => st.currentContext.selection)
      ∧ (AiContextManager.setContext st upd).currentContext.language
        = (match upd.language with | some v => some v | none => st.currentContext.language)
      ∧ (AiContextManager.setContext st upd).currentContext.framework
        = (match upd.framework with | some v => some v | none => st.currentContext.framework)
      ∧ (AiContextManager.setContext st upd).currentContext.projectType
        = (match upd.projectType with | some v => some v | none => st.currentContext.projectType)
      ∧ (AiContextManager.setContext st upd).currentContext.userPreferences
        = (match upd.userPreferences with | some v => some v | none => st.currentContext.userPreferences))
    ∧ ((AiContextManager.setContext
          (AiContextManager.setContext st { language := some l })
          { framework := some fw }).currentContext
        = { st.currentContext with language := some l, framework := some fw }) := by
  refine ⟨⟨rfl, rfl, rfl, rfl, rfl, rfl, rfl⟩, rfl⟩

/-- **C8** — starting from a fresh (or cleared, which is the same state)
context manager, a sequence of `n` `setContext` calls leaves exactly
`min n 10` history entries: the pre-update snapshots of the most recent
mutations, the oldest ones having been evicted first. -/
theorem context_history_bounded_fifo {W F S P : Type}
    (us : List (AiContext W F S P)) (st : AiContextManager.ManagerState W F S P) :
    ((us.foldl AiContextManager.setContext AiContextManager.initialState).contextHistory
        = (preSnapshots ({} : AiContext W F S P) us).drop (us.length - 10))
    ∧ ((us.foldl AiContextManager.setContext AiContextManager.initialState).contextHistory.length
        = min us.length 10)
    ∧ AiContextManager.clearContext st = AiContextManager.initialState := by
  have h1 := foldl_setContext_history us AiContextManager.initialState (by simp [AiContextManager.initialState])
  simp only [AiContextManager.initialState, List.length_nil, List.nil_append, Nat.zero_add] at h1
  have h1' : (us.foldl AiContextManager.setContext AiContextManager.initialState).contextHistory
      = (preSnapshots ({} : AiContext W F S P) us).drop (us.length - 10) := h1
  refine ⟨h1', ?_, rfl⟩
  rw [h1']
  simp only [List.length_drop, length_preSnapshots]
  omega

-- =========================================================================
-- Provider registry lemmas (claims C6, C9)
-- =========================================================================

lemma objSet_ne_nil {V : Type} (m : JsRecord V) (k : String) (v : V) :
    objSet m k v ≠ [] := by
  cases m with
  | nil => simp [objSet]
  | cons kv rest =>
    obtain ⟨k0, v0⟩ := kv
    simp only [objSet]
    split <;> simp

/-- Erasing the first match removes exactly the head of the filtered list. -/
lemma filter_eraseP {α : Type} (q : α → Bool) :
    ∀ (l : List α), (l.eraseP q).filter q = (l.filter q).tail := by
  intro l
  induction l with
  | nil => rfl
  | cons a l ih =>
    by_cases hqa : q a = true
    · rw [List.eraseP_cons_of_pos hqa, List.filter_cons_of_pos hqa, List.tail_cons]
    · have hqa' : ¬ q a := by simpa using hqa
      rw [List.eraseP_cons_of_neg hqa', List.filter_cons_of_neg (by simpa using hqa),
        List.filter_cons_of_neg (by simpa using hqa), ih]

lemma lookup_eq_none_of_filter_nil {V : Type} (k : String) :
    ∀ (l : JsRecord V), l.filter (fun kv => kv.1 == k) = [] → l.lookup k = none := by
  intro l
  induction l with
  | nil => intro _; rfl
  | cons kv rest ih =>
    intro hf
    obtain ⟨k0, v0⟩ := kv
    by_cases hk : (k0 == k) = true
    · exfalso
      rw [List.filter_cons_of_pos (by simpa using hk)] at hf
      exact List.cons_ne_nil _ _ hf
    · rw [List.filter_cons_of_neg (by simpa using hk)] at hf
      have hk' : (k == k0) = false := by
        cases hbe : (k == k0) <;> simp_all [BEq.comm]
      simp only [List.lookup, hk']
      exact ih hf

lemma objSet_filter_key {V : Type} (k : String) (v : V) :
    ∀ (m : JsRecord V), (m.filter (fun kv => kv.1 == k)).length ≤ 1 →
      (objSet m k v).filter (fun kv => kv.1 == k) = [(k, v)] := by
  intro m
  induction m with
  | nil =>
    intro _
    simp [objSet]
  | cons kv rest ih =>
    intro hle
    obtain ⟨k0, v0⟩ := kv
    by_cases hk : (k0 == k) = true
    · simp only [objSet]
      rw [if_pos hk, List.filter_cons_of_pos (by simp)]
      rw [List.filter_cons_of_pos (by simpa using hk)] at hle
      simp only [List.length_cons] at hle
      have hnil : rest.filter (fun kv => kv.1 == k) = [] :=
        List.length_eq_zero.mp (by omega)
      rw [hnil]
    · have hk' : (k0 == k) = false := by simpa using hk
      simp only [objSet]
      rw [if_neg (by simp [hk']), List.filter_cons_of_neg (by simp [hk'])]
      rw [List.filter_cons_of_neg (by simp [hk'])] at hle
      exact ih hle

/-- **C6 counterexample** — a provider registered only through the
kind-specific `registerChatProvider` leaves `isEnabled()` false even though
the chat provider list is non-empty: `isEnabled` consults only the general
provider `Map`, so the claimed "at least one provider of any kind" reading is
false on the code. -/
theorem isEnabled_ignores_kind_lists_cex :
    AiProviderManager.isEnabled
        (AiProviderManager.registerChatProvider sampleProvider AiProviderManager.initialState) = false
    ∧ (AiProviderManager.registerChatProvider sampleProvider AiProviderManager.initialState).chatProviders ≠ [] := by
  exact ⟨rfl, by decide⟩

/-- **C6 (amended)** — `isEnabled()` returns true iff the general provider
`Map` (filled only by `registerAiProvider`) is non-empty; the kind-specific
registration operations do not affect it, and a general registration always
enables the service. -/
theorem isEnabled_iff_general_providers (st : ProviderManagerState) (p : AiProvider) :
    (AiProviderManager.isEnabled st = !st.providers.isEmpty)
    ∧ AiProviderManager.isEnabled (AiProviderManager.registerChatProvider p st)
        = AiProviderManager.isEnabled st
    ∧ AiProviderManager.isEnabled (AiProviderManager.registerCodeCompletionProvider p st)
        = AiProviderManager.isEnabled st
    ∧ AiProviderManager.isEnabled (AiProviderManager.registerCodeEditProvider p st)
        = AiProviderManager.isEnabled st
    ∧ AiProviderManager.isEnabled (AiProviderManager.registerAiProvider p st) = true := by
  refine ⟨rfl, rfl, rfl, rfl, ?_⟩
  simp only [AiProviderManager.isEnabled, AiProviderManager.registerAiProvider,
    Bool.not_eq_true']
  cases h : objSet st.providers p.id p with
  | nil => exact absurd h (objSet_ne_nil _ _ _)
  | cons kv rest => rfl

/-- **C9 counterexample** — on the code, the unregister capability returned by
`registerChatProvider` never invokes the provider's `dispose` (the dispose log
stays empty), and the capability returned by `registerAiProvider` is not
idempotent: its second invocation calls `provider.dispose()` again, changing
the state. -/
theorem unregister_dispose_claims_cex :
    (AiProviderManager.unregisterChatProvider sampleProvider
        (AiProviderManager.registerChatProvider sampleProvider AiProviderManager.initialState)).disposeLog = []
    ∧ AiProviderManager.unregisterAiProvider sampleProvider
        (AiProviderManager.unregisterAiProvider sampleProvider
          (AiProviderManager.registerAiProvider sampleProvider AiProviderManager.initialState))
        ≠ AiProviderManager.unregisterAiProvider sampleProvider
            (AiProviderManager.registerAiProvider sampleProvider AiProviderManager.initialState) := by
  exact ⟨rfl, by decide⟩

/-- **C9 (amended)** — each registration's unregister capability removes the
provider only from the collection that registration added it to. For a
kind-specific registration (chat shown; completion and code-edit are
identical): it removes the provider's first occurrence from that kind's list,
leaves every other field (including the dispose log) untouched, and is
idempotent when the provider does not occur elsewhere in the list. For a
general registration: it removes the provider's map entry (idempotent on the
map when ids are unique) but invokes the provider's `dispose` on every call,
so a second call extends the dispose log again. -/
theorem unregister_per_registration (p : AiProvider) (st : ProviderManagerState)
    (h1 : p.ref ∉ st.chatProviders.map (fun q => q.ref))
    (h2 : (st.providers.filter (fun kv => kv.1 == p.id)).length ≤ 1) :
    ((AiProviderManager.unregisterChatProvider p
        (AiProviderManager.registerChatProvider p st)).chatProviders = st.chatProviders
      ∧ (AiProviderManager.unregisterChatProvider p
          (AiProviderManager.registerChatProvider p st)).disposeLog = st.disposeLog
      ∧ (AiProviderManager.unregisterChatProvider p
          (AiProviderManager.registerChatProvider p st)).providers = st.providers
      ∧ (AiProviderManager.unregisterChatProvider p
          (AiProviderManager.registerChatProvider p st)).completionProviders = st.completionProviders
      ∧ (AiProviderManager.unregisterChatProvider p
          (AiProviderManager.registerChatProvider p st)).codeEditProviders = st.codeEditProviders
      ∧ AiProviderManager.unregisterChatProvider p
          (AiProviderManager.unregisterChatProvider p (AiProviderManager.registerChatProvider p st))
          = AiProviderManager.unregisterChatProvider p (AiProviderManager.registerChatProvider p st))
    ∧ ((AiProviderManager.unregisterAiProvider p
          (AiProviderManager.registerAiProvider p st)).providers.lookup p.id = none
      ∧ (AiProviderManager.unregisterAiProvider p
          (AiProviderManager.registerAiProvider p st)).disposeLog = st.disposeLog ++ [p.ref]
      ∧ (AiProviderManager.unregisterAiProvider p
          (AiProviderManager.unregisterAiProvider p (AiProviderManager.registerAiProvider p st))).providers
          = (AiProviderManager.unregisterAiProvider p (AiProviderManager.registerAiProvider p st)).providers
      ∧ (AiProviderManager.unregisterAiProvider p
          (AiProviderManager.unregisterAiProvider p (AiProviderManager.registerAiProvider p st))).disposeLog
          = st.disposeLog ++ [p.ref, p.ref]) := by
  have hchat : ∀ b ∈ st.chatProviders, ¬ ((fun q => q.ref == p.ref) b = true) := by
    intro b hb
    simp only [beq_iff_eq]
    intro hr
    exact h1 (hr ▸ List.mem_map_of_mem (fun q => q.ref) hb)
  have hsplice : AiProviderManager.spliceOut (st.chatProviders ++ [p]) p.ref = st.chatProviders := by
    unfold AiProviderManager.spliceOut
    rw [List.eraseP_append_right _ hchat, List.eraseP_cons_of_pos (by simp), List.append_nil]
  have hsplice2 : AiProviderManager.spliceOut st.chatProviders p.ref = st.chatProviders :=
    List.eraseP_of_forall_not hchat
  have hfilter1 : ((objSet st.providers p.id p).filter (fun kv => kv.1 == p.id)) = [(p.id, p)] :=
    objSet_filter_key p.id p st.providers h2
  have hfilter0 : (((objSet st.providers p.id p).eraseP (fun kv => kv.1 == p.id)).filter
      (fun kv => kv.1 == p.id)) = [] := by
    rw [filter_eraseP, hfilter1, List.tail_cons]
  have herase2 : ((objSet st.providers p.id p).eraseP (fun kv => kv.1 == p.id)).eraseP
      (fun kv => kv.1 == p.id) = (objSet st.providers p.id p).eraseP (fun kv => kv.1 == p.id) :=
    List.eraseP_of_forall_not (List.filter_eq_nil_iff.mp hfilter0)
  refine ⟨⟨?_, rfl, rfl, rfl, rfl, ?_⟩, ?_, rfl, ?_, ?_⟩
  · simpa only [AiProviderManager.unregisterChatProvider, AiProviderManager.registerChatProvider]
      using hsplice
  · simp only [AiProviderManager.unregisterChatProvider, AiProviderManager.registerChatProvider]
    simp only [hsplice, hsplice2]
  · simp only [AiProviderManager.unregisterAiProvider, AiProviderManager.registerAiProvider]
    exact lookup_eq_none_of_filter_nil p.id _ hfilter0
  · simp only [AiProviderManager.unregisterAiProvider, AiProviderManager.registerAiProvider]
    simp only [herase2]
  · simp only [AiProviderManager.unregisterAiProvider, AiProviderManager.registerAiProvider,
      List.append_assoc, List.singleton_append]

/-- Witness for `unregister_per_registration` at a concrete provider and the
fresh registry state. -/
theorem unregister_per_registration_witness :
    (sampleProvider.ref ∉ AiProviderManager.initialState.chatProviders.map (fun q => q.ref)
      ∧ (AiProviderManager.initialState.providers.filter
          (fun kv => kv.1 == sampleProvider.id)).length ≤ 1)
    ∧ (AiProviderManager.unregisterChatProvider sampleProvider
        (AiProviderManager.registerChatProvider sampleProvider AiProviderManager.initialState)).chatProviders
        = AiProviderManager.initialState.chatProviders := by
  exact ⟨⟨by decide, by decide⟩,
    (unregister_per_registration sampleProvider AiProviderManager.initialState
      (by decide) (by decide)).1.1⟩

-- =========================================================================
-- Dispatch lemmas (claims C1, C2)
-- =========================================================================

lemma promiseAll_isOk_iff {E A : Type} :
    ∀ (xs : List (Except E A)), (promiseAll xs).isOk = true ↔ ∀ x ∈ xs, x.isOk = true := by
  intro xs
  induction xs with
  | nil => simp [promiseAll, Except.isOk, Except.toBool]
  | cons x xs ih =>
    cases x with
    | error e => simp [promiseAll, Except.isOk, Except.toBool]
    | ok a =>
      simp only [promiseAll, exceptMap_isOk, List.mem_cons]
      constructor
      · intro h y hy
        rcases hy with rfl | hy
        · rfl
        · exact (ih.mp h) y hy
      · intro h
        exact ih.mpr (fun y hy => h y (Or.inr hy))

lemma promiseAll_error_mem {E A : Type} :
    ∀ (xs : List (Except E A)) (e : E), promiseAll xs = .error e → ∃ x ∈ xs, x = .error e := by
  intro xs
  induction xs with
  | nil => intro e h; exact absurd h (by simp [promiseAll])
  | cons x xs ih =>
    intro e h
    cases x with
    | error e0 =>
      simp only [promiseAll, Except.error.injEq] at h
      exact ⟨.error e0, List.mem_cons_self _ _, by rw [h]⟩
    | ok a =>
      simp only [promiseAll] at h
      rw [exceptMap_error] at h
      obtain ⟨y, hy, hye⟩ := ih e h
      exact ⟨y, List.mem_cons_of_mem _ hy, hye⟩

/-- **C1** — the claim holds for the original `AiCoreService` revision, whose
dispatches test the kind-specific list, but the refactored revision's
`validateProvidersExist` tests only the general provider `Map`
(`isEnabled()`), contradicting its own name and error message: with one
general provider and zero chat providers, `getChatResponse` succeeds with an
empty merged response instead of failing (and no provider is invoked —
the supplied provider call here would reject); with one chat provider and no
general provider, it fails even though chat providers are registered. -/
theorem refactored_dispatch_checks_wrong_registry :
    AiCoreV2.getChatResponse (V := Unit)
        (AiProviderManager.registerAiProvider sampleProvider AiProviderManager.initialState)
        (fun _ => .error "provider rejected")
      = .ok { message := "", codeBlocks := [], suggestions := [], metadata := some [] }
    ∧ AiCoreV1.getChatResponse (V := Unit)
        (AiProviderManager.registerAiProvider sampleProvider AiProviderManager.initialState)
        (fun _ => .error "provider rejected")
      = .error "No chat providers registered"
    ∧ AiCoreV2.getChatResponse (V := Unit)
        (AiProviderManager.registerChatProvider sampleProvider AiProviderManager.initialState)
        (fun _ => .ok { message := "hi", codeBlocks := [], suggestions := [], metadata := none })
      = .error "No AI providers registered for chat" := by
  exact ⟨rfl, rfl, rfl⟩

/-- **C2** — for every dispatch that invokes at least one provider (the
original revision's three operations, shown on an arbitrary registry state
with a non-empty kind list): the dispatch succeeds iff every invoked provider
call succeeds, and when it rejects, the error is the error of one of the
invoked providers (no merged partial result exists in that case, the result
being a rejection). The refactored revision's `executeWithProviders` has the
same all-or-nothing success condition. -/
theorem dispatch_strict_all_or_nothing {V : Type} (st : ProviderManagerState)
    (f : AiProvider → Except String (AiCompletionResult V))
    (g : AiProvider → Except String (AiChatResponse V))
    (h : AiProvider → Except String (AiCodeEditResult V))
    (hc : st.completionProviders ≠ [])
    (hh : st.chatProviders ≠ [])
    (he : st.codeEditProviders ≠ []) :
    ((AiCoreV1.getCompletion st f).isOk = true ↔ ∀ p ∈ st.completionProviders, (f p).isOk = true)
    ∧ (∀ e, AiCoreV1.getCompletion st f = .error e → ∃ p ∈ st.completionProviders, f p = .error e)
    ∧ ((AiCoreV1.getChatResponse st g).isOk = true ↔ ∀ p ∈ st.chatProviders, (g p).isOk = true)
    ∧ (∀ e, AiCoreV1.getChatResponse st g = .error e → ∃ p ∈ st.chatProviders, g p = .error e)
    ∧ ((AiCoreV1.getCodeEdit st h).isOk = true ↔ ∀ p ∈ st.codeEditProviders, (h p).isOk = true)
    ∧ (∀ e, AiCoreV1.getCodeEdit st h = .error e → ∃ p ∈ st.codeEditProviders, h p = .error e)
    ∧ (∀ (ps : List AiProvider) (op : AiProvider → Except String (AiCompletionResult V)),
        (executeWithProviders ps op).isOk = true ↔ ∀ p ∈ ps, (op p).isOk = true) := by
  have hgen : ∀ (A : Type) (ps : List AiProvider) (op : AiProvider → Except String A),
      ((promiseAll (ps.map op)).isOk = true ↔ ∀ p ∈ ps, (op p).isOk = true) := by
    intro A ps op
    rw [promiseAll_isOk_iff]
    constructor
    · intro hall p hp
      exact hall (op p) (List.mem_map_of_mem op hp)
    · intro hall x hx
      obtain ⟨p, hp, rfl⟩ := List.mem_map.mp hx
      exact hall p hp
  have hgenErr : ∀ (A : Type) (ps : List AiProvider) (op : AiProvider → Except String A) (e : String),
      promiseAll (ps.map op) = .error e → ∃ p ∈ ps, op p = .error e := by
    intro A ps op e hperr
    obtain ⟨x, hx, hxe⟩ := promiseAll_error_mem (ps.map op) e hperr
    obtain ⟨p, hp, rfl⟩ := List.mem_map.mp hx
    exact ⟨p, hp, hxe⟩
  have hclen : ¬ (st.completionProviders.length = 0) := by
    simpa [List.length_eq_zero] using hc
  have hhlen : ¬ (st.chatProviders.length = 0) := by
    simpa [List.length_eq_zero] using hh
  have helen : ¬ (st.codeEditProviders.length = 0) := by
    simpa [List.length_eq_zero] using he
  refine ⟨?_, ?_, ?_, ?_, ?_, ?_, ?_⟩
  · rw [AiCoreV1.getCompletion, if_neg hclen, exceptMap_isOk]
    exact hgen _ _ f
  · intro e herr
    rw [AiCoreV1.getCompletion, if_neg hclen, exceptMap_error] at herr
    exact hgenErr _ _ f e herr
  · rw [AiCoreV1.getChatResponse, if_neg hhlen, exceptMap_isOk]
    exact hgen _ _ g
  · intro e herr
    rw [AiCoreV1.getChatResponse, if_neg hhlen, exceptMap_error] at herr
    exact hgenErr _ _ g e herr
  · rw [AiCoreV1.getCodeEdit, if_neg helen, exceptMap_isOk]
    exact hgen _ _ h
  · intro e herr
    rw [AiCoreV1.getCodeEdit, if_neg helen, exceptMap_error] at herr
    exact hgenErr _ _ h e herr
  · intro ps op
    exact hgen _ ps op

/-- Witness for `dispatch_strict_all_or_nothing` at a concrete registry state
with one provider per kind. -/
theorem dispatch_strict_all_or_nothing_witness :
    (sampleKindState.completionProviders ≠ [] ∧ sampleKindState.chatProviders ≠ []
      ∧ sampleKindState.codeEditProviders ≠ [])
    ∧ ((AiCoreV1.getCompletion (V := Unit) sampleKindState
          (fun _ => .ok { completions := [] })).isOk = true
        ↔ ∀ p ∈ sampleKindState.completionProviders,
            ((fun (_ : AiProvider) => (.ok { completions := [] } :
              Except String (AiCompletionResult Unit))) p).isOk = true) := by
  exact ⟨⟨by decide, by decide, by decide⟩,
    (dispatch_strict_all_or_nothing sampleKindState
      (fun _ => .ok { completions := [] })
      (fun _ => .ok { message := "", codeBlocks := [], suggestions := [] })
      (fun _ => .ok { edits := [] })
      (by decide) (by decide) (by decide)).1⟩

-- =========================================================================
-- Metadata lemmas (claim C10)
-- =========================================================================

lemma lookup_append {V : Type} (k : String) :
    ∀ (a b : JsRecord V), (a ++ b).lookup k = (a.lookup k).or (b.lookup k) := by
  intro a b
  induction a with
  | nil => simp
  | cons kv a ih =>
    obtain ⟨k0, v0⟩ := kv
    by_cases hk : (k == k0) = true
    · simp [List.lookup_cons, hk]
    · have hk' : (k == k0) = false := by simpa using hk
      simp [List.lookup_cons, hk', ih]

lemma lookup_objSet {V : Type} (k k1 : String) (v : V) :
    ∀ (m : JsRecord V),
      (objSet m k1 v).lookup k = if k == k1 then some v else m.lookup k := by
  intro m
  induction m with
  | nil =>
    by_cases hk : (k == k1) = true
    · simp [objSet, List.lookup_cons, hk]
    · have hk' : (k == k1) = false := by simpa using hk
      simp [objSet, List.lookup_cons, hk']
  | cons kv rest ih =>
    obtain ⟨k0, v0⟩ := kv
    by_cases h0 : (k0 == k1) = true
    · simp only [objSet, if_pos h0]
      have h0' : k0 = k1 := by simpa using h0
      by_cases hk : (k == k1) = true
      · simp [List.lookup_cons, hk]
      · have hk' : (k == k1) = false := by simpa using hk
        have hk0 : (k == k0) = false := by subst h0'; exact hk'
        simp [List.lookup_cons, hk', hk0]
    · have h0' : (k0 == k1) = false := by simpa using h0
      simp only [objSet, h0', Bool.false_eq_true, if_false]
      by_cases hk0 : (k == k0) = true
      · have hkk1 : (k == k1) = false := by
          have hke : k = k0 := by simpa using hk0
          subst hke
          simpa using h0
        simp [List.lookup_cons, hk0, hkk1]
      · have hk0' : (k == k0) = false := by simpa using hk0
        simp [List.lookup_cons, hk0', ih]

lemma lookup_objAssign {V : Type} (k : String) :
    ∀ (s t : JsRecord V),
      (objAssign t s).lookup k = (s.reverse.lookup k).or (t.lookup k) := by
  intro s
  induction s with
  | nil => intro t; simp [objAssign]
  | cons kv s ih =>
    intro t
    obtain ⟨k1, v1⟩ := kv
    have hstep : objAssign t ((k1, v1) :: s) = objAssign (objSet t k1 v1) s := rfl
    rw [hstep, ih, List.reverse_cons, lookup_append, lookup_objSet]
    by_cases hk : (k == k1) = true
    · simp [List.lookup_cons, hk, Option.or_assoc]
    · have hk' : (k == k1) = false := by simpa using hk
      simp [List.lookup_cons, hk', Option.or_assoc]

lemma lookup_collectMetadata_aux {V : Type} (k : String) :
    ∀ (ms : List (Option (JsRecord V))) (acc : JsRecord V),
      ((ms.foldl (fun acc m => match m with | some o => objAssign acc o | none => acc) acc).lookup k)
        = ((ms.filterMap id).reverse.findSome? (fun m => m.reverse.lookup k)).or (acc.lookup k) := by
  intro ms
  induction ms with
  | nil => intro acc; simp
  | cons m ms ih =>
    intro acc
    cases m with
    | none => simpa using ih acc
    | some o =>
      simp only [List.foldl_cons, ih (objAssign acc o), lookup_objAssign,
        List.filterMap_cons, Option.some.injEq, id]
      rw [List.reverse_cons, List.findSome?_append]
      cases ho : (o.reverse.lookup k) <;>
        simp [List.findSome?_cons, ho, Option.or_assoc]

lemma lookup_collectMetadata {V : Type} (k : String) (ms : List (Option (JsRecord V))) :
    (collectMetadata ms).lookup k
      = (ms.filterMap id).reverse.findSome? (fun m => m.reverse.lookup k) := by
  rw [collectMetadata, lookup_collectMetadata_aux]
  simp

/-- **C10** — for all three merges, the merged metadata is the key-wise union
of the providers' metadata objects with last-writer-wins on conflicting keys
(the provider later in registration order overwrites), providers with absent
metadata contributing nothing. -/
theorem merge_metadata_last_writer_wins {V : Type}
    (rs1 : List (AiCompletionResult V)) (rs2 : List (AiChatResponse V))
    (rs3 : List (AiCodeEditResult V)) (k : String) :
    ((AiResultMerger.mergeCompletionResults rs1).metadata.bind (fun m => m.lookup k)
        = specLastWriterWins (rs1.map (fun r => r.metadata)) k)
    ∧ ((AiResultMerger.mergeChatResults rs2).metadata.bind (fun m => m.lookup k)
        = specLastWriterWins (rs2.map (fun r => r.metadata)) k)
    ∧ ((AiResultMerger.mergeCodeEditResults rs3).metadata.bind (fun m => m.lookup k)
        = specLastWriterWins (rs3.map (fun r => r.metadata)) k) := by
  refine ⟨?_, ?_, ?_⟩ <;>
    simp [AiResultMerger.mergeCompletionResults, AiResultMerger.mergeChatResults,
      AiResultMerger.mergeCodeEditResults, lookup_collectMetadata, specLastWriterWins]

-- =========================================================================
-- Chat merge lemmas (claim C3)
-- =========================================================================

lemma AiResultMerger.jsOrEmpty_some (s : String) : AiResultMerger.jsOrEmpty (some s) = s := by
  by_cases h : (s == "") = true
  · have hs : s = "" := by simpa using h
    simp [AiResultMerger.jsOrEmpty, hs]
  · have h' : (s == "") = false := by simpa using h
    simp [AiResultMerger.jsOrEmpty, h']

lemma specDedupFirst_cons (x : String) (xs : List String) :
    specDedupFirst (x :: xs) = x :: specDedupFirst (xs.filter (fun y => !(y == x))) := by
  rw [specDedupFirst]

lemma AiResultMerger.jsSetDedupGo_eq_spec :
    ∀ (l seen : List String),
      AiResultMerger.jsSetDedupGo seen l = specDedupFirst (l.filter (fun y => decide (y ∉ seen))) := by
  intro l
  induction l with
  | nil => intro seen; simp [AiResultMerger.jsSetDedupGo, specDedupFirst]
  | cons s ss ih =>
    intro seen
    by_cases hs : s ∈ seen
    · rw [AiResultMerger.jsSetDedupGo, if_pos hs, List.filter_cons_of_neg (by simpa using hs)]
      exact ih seen
    · have hfil : ss.filter (fun y => decide (y ∉ s :: seen))
          = (ss.filter (fun y => decide (y ∉ seen))).filter (fun y => !(y == s)) := by
        rw [List.filter_filter]
        apply List.filter_congr
        intro y _
        by_cases h1 : y = s <;> by_cases h2 : y ∈ seen <;>
          simp [List.mem_cons, h1, h2]
      rw [AiResultMerger.jsSetDedupGo, if_neg hs, List.filter_cons_of_pos (by simpa using hs),
        specDedupFirst_cons, ih (s :: seen), hfil]

/-- **C3 counterexample** — the merged chat message is `results[0]?.message || ''`,
not the first *non-empty* provider message: when the first provider returns an
empty message and the second a non-empty one, the code yields `""` while the
claim requires `"Hello"`. -/
theorem mergeChat_first_nonEmpty_message_cex :
    (AiResultMerger.mergeChatResults (V := Unit)
        [{ message := "", codeBlocks := [], suggestions := [] },
         { message := "Hello", codeBlocks := [], suggestions := [] }]).message = ""
    ∧ specFirstNonEmptyMessage (V := Unit)
        [{ message := "", codeBlocks := [], suggestions := [] },
         { message := "Hello", codeBlocks := [], suggestions := [] }] = "Hello"
    ∧ ("" : String) ≠ "Hello" := by
  exact ⟨rfl, rfl, by decide⟩

/-- **C3 (amended)** — the merged chat response has: message equal to the
*first provider's* message (empty when there are no providers; a later
provider's message is never consulted, even when the first is empty);
codeBlocks equal to the concatenation of all providers' code blocks in
registration order; and suggestions equal to the duplicate-free union of all
providers' suggestions preserving first-occurrence order. In particular the
[P1 "Hi" / P2 "Hello"] example merges to message "Hi" with suggestions
["a","b","c"]. -/
theorem mergeChat_merge_rules {V : Type} (rs : List (AiChatResponse V)) :
    ((AiResultMerger.mergeChatResults rs).message
        = match rs with | [] => "" | r :: _ => r.message)
    ∧ (AiResultMerger.mergeChatResults rs).codeBlocks
        = (rs.map (fun r => r.codeBlocks)).flatten
    ∧ (AiResultMerger.mergeChatResults rs).suggestions
        = specDedupFirst ((rs.map (fun r => r.suggestions)).flatten)
    ∧ (AiResultMerger.mergeChatResults (V := Unit)
        [{ message := "Hi", codeBlocks := [], suggestions := ["a", "b"] },
         { message := "Hello", codeBlocks := [], suggestions := ["b", "c"] }]).message = "Hi"
    ∧ (AiResultMerger.mergeChatResults (V := Unit)
        [{ message := "Hi", codeBlocks := [], suggestions := ["a", "b"] },
         { message := "Hello", codeBlocks := [], suggestions := ["b", "c"] }]).suggestions
        = ["a", "b", "c"] := by
  refine ⟨?_, ?_, ?_, rfl, by decide⟩
  · cases rs with
    | nil => rfl
    | cons r rs => exact AiResultMerger.jsOrEmpty_some r.message
  · simp only [AiResultMerger.mergeChatResults]
    rw [foldl_append_eq_join]
    simp
  · simp only [AiResultMerger.mergeChatResults]
    rw [foldl_append_eq_join, List.nil_append, AiResultMerger.jsSetDedupGo_eq_spec]
    congr 1
    rw [show (fun y => decide (y ∉ ([] : List String))) = (fun _ => true) by
      funext y; simp]
    exact List.filter_true _

-- =========================================================================
-- Dedup key encoding (claim C4): the template-literal key
-- `${text}-${line}-${col}` is collision-free for natural-number positions,
-- because decimal digit strings contain no dash and the two numeric segments
-- can be parsed back off the right end of the key.
-- =========================================================================

lemma digitChar_ne_dash (n : Nat) : Nat.digitChar n ≠ '-' := by
  by_cases h : n < 16
  · have hall : ∀ m, m < 16 → Nat.digitChar m ≠ '-' := by decide
    exact hall n h
  · have hstar : Nat.digitChar n = '*' := by
      unfold Nat.digitChar
      have h0 : ¬ (n = 0) := by omega
      have h1 : ¬ (n = 1) := by omega
      have h2 : ¬ (n = 2) := by omega
      have h3 : ¬ (n = 3) := by omega
      have h4 : ¬ (n = 4) := by omega
      have h5 : ¬ (n = 5) := by omega
      have h6 : ¬ (n = 6) := by omega
      have h7 : ¬ (n = 7) := by omega
      have h8 : ¬ (n = 8) := by omega
      have h9 : ¬ (n = 9) := by omega
      have ha : ¬ (n = 10) := by omega
      have hb : ¬ (n = 11) := by omega
      have hc : ¬ (n = 12) := by omega
      have hd : ¬ (n = 13) := by omega
      have he : ¬ (n = 14) := by omega
      have hf : ¬ (n = 15) := by omega
      simp only [h0, h1, h2, h3, h4, h5, h6, h7, h8, h9, ha, hb, hc, hd, he, hf, if_false]
    rw [hstar]
    decide

lemma toDigitsCore_ne_dash :
    ∀ (f n : Nat) (ds : List Char), (∀ c ∈ ds, c ≠ '-') →
      ∀ c ∈ Nat.toDigitsCore 10 f n ds, c ≠ '-' := by
  intro f
  induction f with
  | zero => intro n ds hds c hc; exact hds c hc
  | succ f ih =>
    intro n ds hds c hc
    simp only [Nat.toDigitsCore] at hc
    split at hc
    · rcases List.mem_cons.mp hc with rfl | h
      · exact digitChar_ne_dash _
      · exact hds c h
    · refine ih (n / 10) _ ?_ c hc
      intro c1 hc1
      rcases List.mem_cons.mp hc1 with rfl | h
      · exact digitChar_ne_dash _
      · exact hds c1 h

lemma repr_ne_dash (n : Nat) : ∀ c ∈ (Nat.repr n).data, c ≠ '-' := by
  intro c hc
  have hdata : (Nat.repr n).data = Nat.toDigitsCore 10 (n + 1) n [] := rfl
  rw [hdata] at hc
  exact toDigitsCore_ne_dash (n + 1) n [] (by simp) c hc

lemma toDigitsCore_acc :
    ∀ (f n : Nat) (ds : List Char),
      Nat.toDigitsCore 10 f n ds = Nat.toDigitsCore 10 f n [] ++ ds := by
  intro f
  induction f with
  | zero => intro n ds; rfl
  | succ f ih =>
    intro n ds
    by_cases h : n / 10 = 0
    · simp only [Nat.toDigitsCore, if_pos h]
      rfl
    · simp only [Nat.toDigitsCore, if_neg h]
      rw [ih (n / 10) (Nat.digitChar (n % 10) :: ds), ih (n / 10) [Nat.digitChar (n % 10)]]
      simp

lemma toDigitsCore_fuel (n : Nat) :
    ∀ (f : Nat), n < f →
      Nat.toDigitsCore 10 f n [] = Nat.toDigitsCore 10 (n + 1) n [] := by
  induction n using Nat.strong_induction_on with
  | _ n ih =>
    intro f hf
    cases f with
    | zero => omega
    | succ f =>
      by_cases h : n / 10 = 0
      · simp only [Nat.toDigitsCore, if_pos h]
      · simp only [Nat.toDigitsCore, if_neg h]
        rw [toDigitsCore_acc f (n / 10) [Nat.digitChar (n % 10)],
          toDigitsCore_acc n (n / 10) [Nat.digitChar (n % 10)]]
        have hlt : n / 10 < n := Nat.div_lt_self (by omega) (by norm_num)
        rw [ih (n / 10) hlt f (by omega), ih (n / 10) hlt n hlt]

lemma toDigits_small (n : Nat) (h : n < 10) : Nat.toDigits 10 n = [Nat.digitChar n] := by
  have h0 : n / 10 = 0 := Nat.div_eq_of_lt h
  simp only [Nat.toDigits, Nat.toDigitsCore, if_pos h0]
  rw [Nat.mod_eq_of_lt h]

lemma toDigitsCore_succ_else (f n : Nat) (h : n / 10 ≠ 0) (ds : List Char) :
    Nat.toDigitsCore 10 (f + 1) n ds
      = Nat.toDigitsCore 10 f (n / 10) (Nat.digitChar (n % 10) :: ds) := by
  simp only [Nat.toDigitsCore, if_neg h]

lemma toDigits_step (n : Nat) (h : 10 ≤ n) :
    Nat.toDigits 10 n = Nat.toDigits 10 (n / 10) ++ [Nat.digitChar (n % 10)] := by
  have h0 : n / 10 ≠ 0 := by
    have := Nat.div_pos h (by norm_num)
    omega
  have hlt : n / 10 < n := Nat.div_lt_self (by omega) (by norm_num)
  rw [show Nat.toDigits 10 n = Nat.toDigitsCore 10 (n + 1) n [] from rfl,
    toDigitsCore_succ_else n n h0,
    toDigitsCore_acc n (n / 10) [Nat.digitChar (n % 10)],
    toDigitsCore_fuel (n / 10) n hlt]
  rfl

lemma toDigits_ne_nil (n : Nat) : Nat.toDigits 10 n ≠ [] := by
  by_cases h : n < 10
  · rw [toDigits_small n h]; simp
  · rw [toDigits_step n (by omega)]; simp

lemma digitChar_inj_lt (m n : Nat) (hm : m < 10) (hn : n < 10)
    (h : Nat.digitChar m = Nat.digitChar n) : m = n := by
  have hall : ∀ m1 < 10, ∀ n1 < 10, Nat.digitChar m1 = Nat.digitChar n1 → m1 = n1 := by decide
  exact hall m hm n hn h

lemma toDigits_inj (m : Nat) :
    ∀ (n : Nat), Nat.toDigits 10 m = Nat.toDigits 10 n → m = n := by
  induction m using Nat.strong_induction_on with
  | _ m ih =>
    intro n h
    by_cases hm : m < 10 <;> by_cases hn : n < 10
    · rw [toDigits_small m hm, toDigits_small n hn] at h
      simp only [List.cons.injEq, and_true] at h
      exact digitChar_inj_lt m n hm hn h
    · rw [toDigits_small m hm, toDigits_step n (by omega)] at h
      have hlen := congrArg List.length h
      simp only [List.length_cons, List.length_nil, List.length_append] at hlen
      have : Nat.toDigits 10 (n / 10) = [] := List.length_eq_zero.mp (by omega)
      exact absurd this (toDigits_ne_nil _)
    · rw [toDigits_step m (by omega), toDigits_small n hn] at h
      have hlen := congrArg List.length h
      simp only [List.length_cons, List.length_nil, List.length_append] at hlen
      have : Nat.toDigits 10 (m / 10) = [] := List.length_eq_zero.mp (by omega)
      exact absurd this (toDigits_ne_nil _)
    · rw [toDigits_step m (by omega), toDigits_step n (by omega)] at h
      obtain ⟨h1, h2⟩ := List.append_inj' h (by simp)
      have hdiv : m / 10 = n / 10 :=
        ih (m / 10) (Nat.div_lt_self (by omega) (by norm_num)) (n / 10) h1
      have hmod : m % 10 = n % 10 := by
        simp only [List.cons.injEq, and_true] at h2
        exact digitChar_inj_lt _ _ (Nat.mod_lt _ (by norm_num)) (Nat.mod_lt _ (by norm_num)) h2
      omega

lemma natRepr_inj {m n : Nat} (h : Nat.repr m = Nat.repr n) : m = n := by
  apply toDigits_inj
  have hdata := congrArg String.data h
  simpa [Nat.repr, List.asString] using hdata

lemma sep_split {sep : Char} :
    ∀ (xs ys u v : List Char), sep ∉ xs → sep ∉ ys →
      xs ++ sep :: u = ys ++ sep :: v → xs = ys ∧ u = v := by
  intro xs
  induction xs with
  | nil =>
    intro ys u v _ hys h
    cases ys with
    | nil => simpa using h
    | cons b ys =>
      simp only [List.nil_append, List.cons_append, List.cons.injEq] at h
      exact absurd (h.1 ▸ List.mem_cons_self b ys) hys
  | cons a xs ih =>
    intro ys u v hxs hys h
    cases ys with
    | nil =>
      simp only [List.cons_append, List.nil_append, List.cons.injEq] at h
      exact absurd (h.1 ▸ List.mem_cons_self a xs) hxs
    | cons b ys =>
      simp only [List.cons_append, List.cons.injEq] at h
      have hrec := ih ys u v (fun hm => hxs (List.mem_cons_of_mem a hm))
        (fun hm => hys (List.mem_cons_of_mem b hm)) h.2
      exact ⟨by rw [h.1, hrec.1], hrec.2⟩

lemma keyEncoding_inj {t1 t2 : String} {l1 l2 c1 c2 : Nat}
    (h : t1 ++ "-" ++ Nat.repr l1 ++ "-" ++ Nat.repr c1
       = t2 ++ "-" ++ Nat.repr l2 ++ "-" ++ Nat.repr c2) :
    t1 = t2 ∧ l1 = l2 ∧ c1 = c2 := by
  have hd := congrArg String.data h
  simp only [String.data_append] at hd
  have hrev := congrArg List.reverse hd
  simp only [List.reverse_append, List.reverse_cons, List.reverse_nil, List.nil_append,
    List.append_eq, List.append_assoc, List.singleton_append] at hrev
  have hcfree1 : '-' ∉ (Nat.repr c1).data.reverse := by
    simp only [List.mem_reverse]
    intro hm
    exact repr_ne_dash c1 '-' hm rfl
  have hcfree2 : '-' ∉ (Nat.repr c2).data.reverse := by
    simp only [List.mem_reverse]
    intro hm
    exact repr_ne_dash c2 '-' hm rfl
  have hlfree1 : '-' ∉ (Nat.repr l1).data.reverse := by
    simp only [List.mem_reverse]
    intro hm
    exact repr_ne_dash l1 '-' hm rfl
  have hlfree2 : '-' ∉ (Nat.repr l2).data.reverse := by
    simp only [List.mem_reverse]
    intro hm
    exact repr_ne_dash l2 '-' hm rfl
  obtain ⟨hc, hrest⟩ := sep_split _ _ _ _ hcfree1 hcfree2 hrev
  try simp only [List.append_eq, List.append_assoc, List.singleton_append] at hrest
  obtain ⟨hl, ht⟩ := sep_split _ _ _ _ hlfree1 hlfree2 hrest
  refine ⟨?_, ?_, ?_⟩
  · refine String.ext ?_
    have := congrArg List.reverse ht
    simpa using this
  · refine natRepr_inj (String.ext ?_)
    have := congrArg List.reverse hl
    simpa using this
  · refine natRepr_inj (String.ext ?_)
    have := congrArg List.reverse hc
    simpa using this

lemma keyPred_eq_completionKey {V : Type} (t : String) (sl sc : Nat) (c : AiCompletion V) :
    (c.text == t && (c.range.startLineNumber == sl && c.range.startColumn == sc))
      = (AiResultMerger.completionKey c == (t ++ "-" ++ Nat.repr sl ++ "-" ++ Nat.repr sc)) := by
  by_cases hkey : AiResultMerger.completionKey c
      = (t ++ "-" ++ Nat.repr sl ++ "-" ++ Nat.repr sc)
  · obtain ⟨h1, h2, h3⟩ := keyEncoding_inj
      (by simpa [AiResultMerger.completionKey] using hkey)
    simp [h1, h2, h3, hkey]
  · have hrhs : (AiResultMerger.completionKey c
        == (t ++ "-" ++ Nat.repr sl ++ "-" ++ Nat.repr sc)) = false := by
      simpa using hkey
    rw [hrhs]
    cases hb1 : (c.text == t) <;> cases hb2 : (c.range.startLineNumber == sl) <;>
      cases hb3 : (c.range.startColumn == sc) <;>
        simp_all [AiResultMerger.completionKey]

lemma dedupGo_filter_of_mem {V : Type} (k : String) :
    ∀ (l : List (AiCompletion V)) (seen : List String), k ∈ seen →
      (AiResultMerger.dedupGo seen l).filter
        (fun c => AiResultMerger.completionKey c == k) = [] := by
  intro l
  induction l with
  | nil => intro seen hk; rfl
  | cons c cs ih =>
    intro seen hk
    simp only [AiResultMerger.dedupGo]
    by_cases hc : AiResultMerger.completionKey c ∈ seen
    · rw [if_pos hc]
      exact ih seen hk
    · rw [if_neg hc]
      have hck : (AiResultMerger.completionKey c == k) = false := by
        simp only [beq_eq_false_iff_ne, ne_eq]
        intro he
        exact hc (he ▸ hk)
      rw [List.filter_cons_of_neg (by simp [hck])]
      exact ih _ (List.mem_cons_of_mem _ hk)

lemma dedupGo_filter_of_not_mem {V : Type} (k : String) :
    ∀ (l : List (AiCompletion V)) (seen : List String), k ∉ seen →
      (AiResultMerger.dedupGo seen l).filter (fun c => AiResultMerger.completionKey c == k)
        = (l.find? (fun c => AiResultMerger.completionKey c == k)).toList := by
  intro l
  induction l with
  | nil => intro seen hk; rfl
  | cons c cs ih =>
    intro seen hk
    simp only [AiResultMerger.dedupGo]
    by_cases hcs : AiResultMerger.completionKey c ∈ seen
    · rw [if_pos hcs]
      have hck : (AiResultMerger.completionKey c == k) = false := by
        simp only [beq_eq_false_iff_ne, ne_eq]
        rintro rfl
        exact hk hcs
      rw [List.find?_cons_of_neg _ (by simp [hck])]
      exact ih seen hk
    · rw [if_neg hcs]
      by_cases hck : AiResultMerger.completionKey c = k
      · have hckb : (AiResultMerger.completionKey c == k) = true := by simpa using hck
        rw [List.filter_cons_of_pos (by simp [hckb]), List.find?_cons_of_pos _ (by simp [hckb])]
        subst hck
        rw [dedupGo_filter_of_mem _ cs _ (List.mem_cons_self _ _)]
        rfl
      · have hckb : (AiResultMerger.completionKey c == k) = false := by simpa using hck
        rw [List.filter_cons_of_neg (by simp [hckb]), List.find?_cons_of_neg _ (by simp [hckb])]
        refine ih _ ?_
        intro hmem
        rcases List.mem_cons.mp hmem with he | hmem2
        · exact hck he.symm
        · exact hk hmem2

/-- **C4** — in the merged completion list there is exactly one completion per
identity key (text, range.start): filtering the merged list by any concrete
(text, startLineNumber, startColumn) yields exactly the first completion with
that key from the providers' concatenated output (in registration order) when
one exists, and nothing otherwise; the kept completion is that first-seen
record itself, so its score, kind and metadata are retained. -/
theorem merged_completions_one_per_key {V : Type} (rs : List (AiCompletionResult V))
    (t : String) (sl sc : Nat) :
    ((AiResultMerger.mergeCompletionResults rs).completions.filter
        (fun c => c.text == t && (c.range.startLineNumber == sl && c.range.startColumn == sc)))
      = ((AiResultMerger.allCompletions rs).find?
          (fun c => c.text == t && (c.range.startLineNumber == sl && c.range.startColumn == sc))).toList := by
  have hfun : (fun (c : AiCompletion V) =>
        c.text == t && (c.range.startLineNumber == sl && c.range.startColumn == sc))
      = (fun c => AiResultMerger.completionKey c
          == (t ++ "-" ++ Nat.repr sl ++ "-" ++ Nat.repr sc)) :=
    funext (fun c => keyPred_eq_completionKey t sl sc c)
  rw [hfun]
  have hdedup := dedupGo_filter_of_not_mem (V := V)
    (t ++ "-" ++ Nat.repr sl ++ "-" ++ Nat.repr sc) (AiResultMerger.allCompletions rs) []
    (by simp)
  have hperm : ((AiResultMerger.mergeCompletionResults rs).completions.filter
        (fun c => AiResultMerger.completionKey c
          == (t ++ "-" ++ Nat.repr sl ++ "-" ++ Nat.repr sc))).Perm
      ((AiResultMerger.dedupGo [] (AiResultMerger.allCompletions rs)).filter
        (fun c => AiResultMerger.completionKey c
          == (t ++ "-" ++ Nat.repr sl ++ "-" ++ Nat.repr sc))) := by
    apply List.Perm.filter
    simp only [AiResultMerger.mergeCompletionResults, AiResultMerger.deduplicateCompletions]
    exact List.perm_insertionSort _ _
  rw [hdedup] at hperm
  cases hfind : (AiResultMerger.allCompletions rs).find?
      (fun c => AiResultMerger.completionKey c
        == (t ++ "-" ++ Nat.repr sl ++ "-" ++ Nat.repr sc)) with
  | none =>
    rw [hfind] at hperm
    simpa using hperm.eq_nil
  | some x =>
    rw [hfind] at hperm
    simpa using List.perm_singleton.mp (by simpa using hperm)

-- =========================================================================
-- Sort lemmas (claim C5)
-- =========================================================================

lemma filter_score_orderedInsert {V : Type} (s : ℚ) (c : AiCompletion V) :
    ∀ (m : List (AiCompletion V)),
      (List.orderedInsert AiResultMerger.scoreOrder c m).filter (fun x => x.score == s)
        = (if (c.score == s) = true then c :: m.filter (fun x => x.score == s)
           else m.filter (fun x => x.score == s)) := by
  intro m
  induction m with
  | nil =>
    by_cases hc : (c.score == s) = true
    · simp only [List.orderedInsert, if_pos hc]
      rw [List.filter_cons_of_pos (by simp [hc])]
    · simp only [List.orderedInsert, if_neg hc]
      rw [List.filter_cons_of_neg (by simpa using hc)]
  | cons d ds ih =>
    by_cases hr : AiResultMerger.scoreOrder c d
    · simp only [List.orderedInsert, if_pos hr]
      by_cases hc : (c.score == s) = true
      · rw [List.filter_cons_of_pos (by simp [hc]), if_pos hc]
      · rw [List.filter_cons_of_neg (by simpa using hc), if_neg hc]
    · simp only [List.orderedInsert, if_neg hr]
      have hlt : c.score < d.score := by
        have hr2 := hr
        simp only [AiResultMerger.scoreOrder, not_le] at hr2
        exact hr2
      by_cases hd : (d.score == s) = true
      · have hcf : (c.score == s) = false := by
          simp only [beq_eq_false_iff_ne, ne_eq]
          intro hcs
          have hds : d.score = s := by simpa using hd
          rw [hcs, hds] at hlt
          exact lt_irrefl _ hlt
        rw [List.filter_cons_of_pos (by simp [hd]), ih, if_neg (by simp [hcf]),
          if_neg (by simp [hcf]), List.filter_cons_of_pos (by simp [hd])]
      · by_cases hc : (c.score == s) = true
        · rw [List.filter_cons_of_neg (by simpa using hd), ih, if_pos hc, if_pos hc,
            List.filter_cons_of_neg (by simpa using hd)]
        · rw [List.filter_cons_of_neg (by simpa using hd), ih, if_neg hc, if_neg hc,
            List.filter_cons_of_neg (by simpa using hd)]

lemma filter_score_insertionSort {V : Type} (s : ℚ) :
    ∀ (l : List (AiCompletion V)),
      (List.insertionSort AiResultMerger.scoreOrder l).filter (fun x => x.score == s)
        = l.filter (fun x => x.score == s) := by
  intro l
  induction l with
  | nil => rfl
  | cons c cs ih =>
    simp only [List.insertionSort]
    rw [filter_score_orderedInsert, ih]
    by_cases hc : (c.score == s) = true
    · rw [if_pos hc, List.filter_cons_of_pos (by simp [hc])]
    · rw [if_neg hc, List.filter_cons_of_neg (by simpa using hc)]

lemma dedupGo_sublist {V : Type} :
    ∀ (l : List (AiCompletion V)) (seen : List String),
      (AiResultMerger.dedupGo seen l).Sublist l := by
  intro l
  induction l with
  | nil => intro seen; simp [AiResultMerger.dedupGo]
  | cons c cs ih =>
    intro seen
    simp only [AiResultMerger.dedupGo]
    by_cases hc : AiResultMerger.completionKey c ∈ seen
    · rw [if_pos hc]
      exact (ih seen).cons c
    · rw [if_neg hc]
      exact (ih _).cons₂ c

/-- **C5** — the merged completion list is sorted by descending score
(`scoreOrder a b` is `b.score ≤ a.score`), and the sort is stable: for every
score `s`, the subsequence of score-`s` completions equals that of the
deduplicated arrival list, which is itself an order-preserving sublist of the
providers' concatenated output; the two-items-at-0.9 example merges to
["X", "Y"] in arrival order. -/
theorem merged_completions_sorted_stable {V : Type}
    (rs : List (AiCompletionResult V)) (s : ℚ) :
    ((AiResultMerger.mergeCompletionResults rs).completions.Sorted AiResultMerger.scoreOrder)
    ∧ ((AiResultMerger.mergeCompletionResults rs).completions.filter (fun c => c.score == s)
        = (AiResultMerger.deduplicateCompletions (AiResultMerger.allCompletions rs)).filter
            (fun c => c.score == s))
    ∧ ((AiResultMerger.deduplicateCompletions (AiResultMerger.allCompletions rs)).Sublist
        (AiResultMerger.allCompletions rs))
    ∧ (AiResultMerger.mergeCompletionResults
          [{ completions := [completionX, completionY] }]).completions
        = [completionX, completionY] := by
  refine ⟨?_, ?_, ?_, ?_⟩
  · simp only [AiResultMerger.mergeCompletionResults]
    exact List.sorted_insertionSort _ _
  · simp only [AiResultMerger.mergeCompletionResults, AiResultMerger.deduplicateCompletions]
    exact filter_score_insertionSort s _
  · exact dedupGo_sublist _ []
  · have hkeyY : AiResultMerger.completionKey (V := Unit) completionY
        ∉ [AiResultMerger.completionKey (V := Unit) completionX] := by decide
    have hded : AiResultMerger.deduplicateCompletions [completionX, completionY]
        = [completionX, completionY] := by
      simp only [AiResultMerger.deduplicateCompletions, AiResultMerger.dedupGo,
        List.not_mem_nil, if_neg, if_false, ite_false]
      rw [if_neg (by simpa using hkeyY)]
    have hord : AiResultMerger.scoreOrder (V := Unit) completionX completionY := le_refl _
    simp only [AiResultMerger.mergeCompletionResults, AiResultMerger.allCompletions,
      List.foldl_cons, List.foldl_nil, List.nil_append, hded,
      List.insertionSort, List.orderedInsert, if_pos hord]
